import Mathlib

/-!
Verification of the text-processing core of `rslib/src/text.rs`: HTML
stripping, HTML-entity decoding, audio/TTS tag extraction, image-filename
preservation and cloze-number collection.  The Rust regular expressions are
embedded as hand-translated scanners over `List Char` with leftmost-first
match semantics (alternatives tried in pattern order, lazy quantifiers take
the shortest extension that lets the rest of the pattern match, greedy
quantifiers the longest).  Case-insensitive pieces are modelled with ASCII
lower-casing.
-/

set_option linter.unusedVariables false

namespace AnkiText

/-- Single-quote character, written via its code point. -/
def squoteC : Char := Char.ofNat 39

/-- Double-quote character, written via its code point. -/
def dquoteC : Char := Char.ofNat 34

/-- Opening curly brace character. -/
def lbraceC : Char := Char.ofNat 123

/-- Closing curly brace character. -/
def rbraceC : Char := Char.ofNat 125

/-- Exact prefix test on character lists. -/
def isPre : List Char → List Char → Bool
  | [], _ => true
  | _ :: _, [] => false
  | p :: ps, c :: cs => if p = c then isPre ps cs else false

/-- ASCII-case-insensitive prefix test, for the `(?i)` regex flag. -/
def preCI : List Char → List Char → Bool
  | [], _ => true
  | _ :: _, [] => false
  | p :: ps, c :: cs => if p.toLower = c.toLower then preCI ps cs else false

/-- Index of the earliest occurrence of `pat` as a prefix of a suffix of the
list (exact match), i.e. the leftmost match of a literal piece of a regex. -/
def findSfx (pat : List Char) : List Char → Option Nat
  | [] => if isPre pat [] then some 0 else none
  | c :: rest => if isPre pat (c :: rest) then some 0 else (findSfx pat rest).map (· + 1)

/-- Case-insensitive variant of `findSfx`. -/
def findSfxCI (pat : List Char) : List Char → Option Nat
  | [] => if preCI pat [] then some 0 else none
  | c :: rest => if preCI pat (c :: rest) then some 0 else (findSfxCI pat rest).map (· + 1)

/-- Index of the first occurrence of a single character. -/
def findCharIdx (ch : Char) : List Char → Option Nat
  | [] => none
  | c :: rest => if c = ch then some 0 else (findCharIdx ch rest).map (· + 1)

/-- First-alternative-wins combination of two optional match results,
modelling regex alternation order. -/
def firstSome (a b : Option Nat) : Option Nat :=
  match a with
  | some x => some x
  | none => b

/-- Length of a match of the comment branch `<!--.*?-->` of the `HTML`
regex, starting at a `<` whose tail is `rest`. -/
def commentLen (rest : List Char) : Option Nat :=
  if isPre ("!--".data) rest then
    (findSfx ("-->".data) (rest.drop 3)).map (fun j => 1 + 3 + j + 3)
  else none

/-- Length of a match of a wrapped-block branch such as
`<style.*?>.*?</style>` of the `HTML` regex: the lazy quantifiers take the
first `>` after the opening word and then the earliest closing tag after
it (if no closing tag follows the first `>`, none follows any later `>`
either, since the closing tag itself ends in `>`). -/
def blockLen (opening closing : List Char) (rest : List Char) : Option Nat :=
  if preCI opening rest then
    match findCharIdx '>' (rest.drop opening.length) with
    | some j =>
        (findSfxCI closing ((rest.drop opening.length).drop (j + 1))).map
          (fun k => 1 + opening.length + j + 1 + k + closing.length)
    | none => none
  else none

/-- Length of a match of the generic-tag branch `<.*?>`: a `<` followed
lazily by anything (dotall) up to the earliest `>`. -/
def tagLen (rest : List Char) : Option Nat :=
  (findCharIdx '>' rest).map (fun j => 1 + j + 1)

/-- Length of the leftmost-first match of the `HTML` regex
`(?si)(<!--.*?-->)|(<style.*?>.*?</style>)|(<script.*?>.*?</script>)|(<.*?>)`
starting exactly at the head of `s`, or `none`. -/
def htmlMatchLen (s : List Char) : Option Nat :=
  match s with
  | [] => none
  | c :: rest =>
    if c = '<' then
      firstSome (commentLen rest)
        (firstSome (blockLen ("style".data) ("</style>".data) rest)
          (firstSome (blockLen ("script".data) ("</script>".data) rest)
            (tagLen rest)))
    else none

/-- Scanner implementing `HTML.replace_all(s, repl)`: the first argument is
the number of characters of the current match still to be skipped, matches
are replaced by `repl` and scanning resumes after the match. -/
def htmlScan (repl : List Char) : Nat → List Char → List Char
  | n + 1, _ :: rest => htmlScan repl n rest
  | _ + 1, [] => []
  | 0, [] => []
  | 0, c :: rest =>
    match htmlMatchLen (c :: rest) with
    | some len => repl ++ htmlScan repl (len - 1) rest
    | none => c :: htmlScan repl 0 rest

/-- `strip_html`: remove every match of the `HTML` regex. -/
def strip_html (s : String) : String := ⟨htmlScan [] 0 s.data⟩

/-- Error kinds of the entity decoder. Modelled from the spec: the
`htmlescape` crate used by `decode_entities` is a dependency whose
source is not part of the repository; its decoder fails on a character
reference that never terminates or names an unknown entity. -/
inductive DecodeErrKind where
  | unknownEntity
  | prematureEnd
deriving DecidableEq, Repr

/-- Error value of the entity decoder, carrying the position of the
offending `&`. Modelled from the spec: mirrors the error type of the
`htmlescape` crate dependency. -/
structure DecodeErr where
  position : Nat
  kind : DecodeErrKind
deriving DecidableEq, Repr

/-- Decimal digit string to number. -/
def digitsToNat (ds : List Char) : Nat :=
  ds.foldl (fun a c => a * 10 + (c.toNat - 48)) 0

/-- Hexadecimal digit value of a character, if any. -/
def hexDigitVal (c : Char) : Option Nat :=
  if '0' ≤ c ∧ c ≤ '9' then some (c.toNat - 48)
  else if 'a' ≤ c ∧ c ≤ 'f' then some (c.toNat - 87)
  else if 'A' ≤ c ∧ c ≤ 'F' then some (c.toNat - 55)
  else none

/-- Hexadecimal digit string to number, failing on a non-hex character. -/
def hexToNat (ds : List Char) : Option Nat :=
  ds.foldl (fun a c => a.bind (fun v => (hexDigitVal c).map (fun d => v * 16 + d))) (some 0)

/-- A scalar-value check and character construction for numeric character
references; surrogate and out-of-range code points are rejected. -/
def mkNumChar (n : Nat) : Option (List Char) :=
  if n < 1114112 ∧ ¬(55296 ≤ n ∧ n ≤ 57343) then some [Char.ofNat n] else none

/-- Named-entity table. Modelled from the spec: a representative subset of
the named character references decoded by the `htmlescape` crate dependency. -/
def namedEnt (n : List Char) : Option (List Char) :=
  if n = "amp".data then some ['&']
  else if n = "lt".data then some ['<']
  else if n = "gt".data then some ['>']
  else if n = "quot".data then some [dquoteC]
  else if n = "apos".data then some [squoteC]
  else if n = "nbsp".data then some [Char.ofNat 160]
  else none

/-- Numeric character reference body (after `#`): decimal `ddd` or
hexadecimal `xhh`. -/
def numEnt (ds : List Char) : Option (List Char) :=
  match ds with
  | 'x' :: hs => (hexToNat hs).bind (fun v => if hs = [] then none else mkNumChar v)
  | 'X' :: hs => (hexToNat hs).bind (fun v => if hs = [] then none else mkNumChar v)
  | _ =>
    if ds ≠ [] ∧ ds.all Char.isDigit then mkNumChar (digitsToNat ds) else none

/-- Decode one character-reference body (the text between `&` and `;`). -/
def decodeEntity (name : List Char) : Option (List Char) :=
  match name with
  | '#' :: ds => numEnt ds
  | _ => namedEnt name

/-- Entity-decoding scanner. Modelled from the spec: the
`htmlescape` crate's `decode_html` (a dependency outside the repository), which copies ordinary characters, turns
each `&NAME;` reference into its replacement text, and fails with a
positioned error on a reference with no terminating `;` or an unknown
name. The first argument is the current character position (for error
reporting), the second the number of characters still to skip. -/
def decodeAux : Nat → Nat → List Char → Except DecodeErr (List Char)
  | pos, n + 1, _ :: rest => decodeAux pos n rest
  | _, _ + 1, [] => Except.ok []
  | _, 0, [] => Except.ok []
  | pos, 0, c :: rest =>
    if c = '&' then
      match findCharIdx ';' rest with
      | none => Except.error ⟨pos, DecodeErrKind.prematureEnd⟩
      | some j =>
        match decodeEntity (rest.take j) with
        | none => Except.error ⟨pos, DecodeErrKind.unknownEntity⟩
        | some cs => (decodeAux (pos + j + 2) (j + 1) rest).map (fun t => cs ++ t)
    else (decodeAux (pos + 1) 0 rest).map (fun t => c :: t)

/-- Kind name as printed by the Rust `Debug` formatting of the error. -/
def kindRepr : DecodeErrKind → List Char
  | DecodeErrKind.unknownEntity => "UnknownEntity".data
  | DecodeErrKind.prematureEnd => "PrematureEnd".data

/-- The diagnostic string `format!("\x7b:?\x7d", e)` that `decode_entities`
produces from a decode error. -/
def formatErr (e : DecodeErr) : List Char :=
  "DecodeErr \x7b position: ".data ++ (Nat.repr e.position).data ++
    ", kind: ".data ++ kindRepr e.kind ++ " \x7d".data

/-- List-level `decode_entities`: fast path when no `&` is present,
otherwise decode, and on error return the formatted diagnostic instead. -/
def decodeEntitiesL (l : List Char) : List Char :=
  if '&' ∈ l then
    match decodeAux 0 0 l with
    | Except.ok t => t
    | Except.error e => formatErr e
  else l

/-- `decode_entities` on strings. -/
def decode_entities (s : String) : String := ⟨decodeEntitiesL s.data⟩

/-- List-level `strip_html_for_tts`: replace each `HTML` match by a single
space, then decode entities (both `Cow` branches of the Rust code decode
the replacement result, which equals the input when nothing matched). -/
def stripForTtsL (l : List Char) : List Char :=
  decodeEntitiesL (htmlScan [' '] 0 l)

/-- `strip_html_for_tts` on strings. -/
def strip_html_for_tts (s : String) : String := ⟨stripForTtsL s.data⟩

/-- The parsed audio/speech directive type `AVTag` of `text.rs`. -/
inductive AVTag where
  | SoundOrVideo (filename : String)
  | TextToSpeech (field_text : String) (lang : String)
      (voices : List String) (other_args : List String)
deriving DecidableEq, Repr

/-- Voices field of an `AVTag` (empty for a sound tag). -/
def AVTag.voicesOf : AVTag → List String
  | AVTag.SoundOrVideo _ => []
  | AVTag.TextToSpeech _ _ v _ => v

/-- Other-args field of an `AVTag` (empty for a sound tag). -/
def AVTag.otherArgsOf : AVTag → List String
  | AVTag.SoundOrVideo _ => []
  | AVTag.TextToSpeech _ _ _ o => o

/-- Raw captures of one `AV_TAGS` match: either the filename of a
`[sound:...]` tag, or the argument string and field text of an
`[anki:tts][...]...[/anki:tts]` tag. -/
inductive AvCap where
  | sound (fname : List Char)
  | tts (args ftext : List Char)
deriving DecidableEq, Repr

/-- Leftmost-first match of the `AV_TAGS` regex
`\[sound:(.*?)\]|\[anki:tts\]\[(.*?)\](.*?)\[/anki:tts\]` starting exactly
at the head of `s`: the lazy quantifiers take the earliest closing
bracket, and for the TTS branch the earliest closing `[/anki:tts]` after
the argument bracket (if none follows the earliest `]`, none follows a
later one, since `[/anki:tts]` itself ends in `]`). Returns the captures
and the total match length. -/
def avMatchAt (s : List Char) : Option (AvCap × Nat) :=
  if isPre ("[sound:".data) s then
    match findCharIdx ']' (s.drop 7) with
    | some j => some (AvCap.sound ((s.drop 7).take j), 7 + j + 1)
    | none => none
  else if isPre ("[anki:tts][".data) s then
    match findCharIdx ']' (s.drop 11) with
    | some j =>
      match findSfx ("[/anki:tts]".data) (((s.drop 11)).drop (j + 1)) with
      | some k =>
        some (AvCap.tts ((s.drop 11).take j) (((s.drop 11).drop (j + 1)).take k),
              11 + j + 1 + k + 11)
      | none => none
    | none => none
  else none

/-- Split on a separator character, Rust `str::split(char)` semantics:
always at least one piece, empty pieces kept. -/
def splitChar (sep : Char) : List Char → List (List Char)
  | [] => [[]]
  | c :: rest =>
    match splitChar sep rest with
    | g :: gs => if c = sep then [] :: g :: gs else (c :: g) :: gs
    | [] => if c = sep then [[], []] else [[c]]

/-- Does a token start with `voices=`? -/
def isVoicesTok (t : List Char) : Bool := isPre ("voices=".data) t

/-- Value assigned to `voices` from one `voices=` token:
`tok.split('=').nth(1).map(|v| v.split(','))`. -/
def voicesVal (t : List Char) : Option (List (List Char)) :=
  ((splitChar '=' t).get? 1).map (splitChar ',')

/-- The argument loop of `tts_tag_from_string`: walk the tokens after the
language token, reassigning `voices` on each `voices=` token and pushing
every other token onto `other_args`. -/
def ttsLoop : List (List Char) → Option (List (List Char)) → List (List Char) →
    Option (List (List Char)) × List (List Char)
  | [], v, acc => (v, acc)
  | t :: ts, v, acc =>
    if isVoicesTok t then ttsLoop ts (voicesVal t) acc
    else ttsLoop ts v (acc ++ [t])

/-- `tts_tag_from_string`: split the argument string on spaces, take the
first token as the language, fold the rest through the voices/other-args
loop, and strip the field text for speech. -/
def tts_tag_from_string (ftext args : List Char) : AVTag :=
  let toks := splitChar ' ' args
  let pr := ttsLoop (toks.drop 1) none []
  AVTag.TextToSpeech ⟨stripForTtsL ftext⟩ ⟨toks.headD []⟩
    ((pr.1.getD []).map (fun v => String.mk v))
    (pr.2.map (fun t => String.mk t))

/-- Turn the captures of one `AV_TAGS` match into an `AVTag`, decoding the
filename of a sound tag. -/
def capToTag : AvCap → AVTag
  | AvCap.sound f => AVTag.SoundOrVideo ⟨decodeEntitiesL f⟩
  | AvCap.tts args ftext => tts_tag_from_string ftext args

/-- Placeholder emitted by `flag_av_tags` for the match with index `i`. -/
def playTag (i : Nat) : List Char :=
  "[anki:play]".data ++ (Nat.repr i).data ++ "[/anki:play]".data

/-- Scanner implementing `AV_TAGS.replace_all(s, "")`; first argument is
the residual skip count of the current match. -/
def avScanStrip : Nat → List Char → List Char
  | n + 1, _ :: rest => avScanStrip n rest
  | _ + 1, [] => []
  | 0, [] => []
  | 0, c :: rest =>
    match avMatchAt (c :: rest) with
    | some (_, len) => avScanStrip (len - 1) rest
    | none => c :: avScanStrip 0 rest

/-- Scanner implementing `flag_av_tags`'s `replace_all` with the closure
counter `idx`: the arguments are the counter, the residual skip count and
the text. -/
def avScanFlag : Nat → Nat → List Char → List Char
  | i, n + 1, _ :: rest => avScanFlag i n rest
  | _, _ + 1, [] => []
  | _, 0, [] => []
  | i, 0, c :: rest =>
    match avMatchAt (c :: rest) with
    | some (_, len) => playTag i ++ avScanFlag (i + 1) (len - 1) rest
    | none => c :: avScanFlag i 0 rest

/-- Scanner implementing `AV_TAGS.captures_iter(s)` mapped through the tag
constructor, i.e. `av_tags_in_string`. -/
def avScanTags : Nat → List Char → List AVTag
  | n + 1, _ :: rest => avScanTags n rest
  | _ + 1, [] => []
  | 0, [] => []
  | 0, c :: rest =>
    match avMatchAt (c :: rest) with
    | some (cap, len) => capToTag cap :: avScanTags (len - 1) rest
    | none => avScanTags 0 rest

/-- The gap decomposition induced by the `AV_TAGS` matches: the list of
maximal unmatched text chunks, in order; a text with `n` matches yields
`n + 1` gaps (possibly empty). -/
def avScanGaps : Nat → List Char → List (List Char)
  | n + 1, _ :: rest => avScanGaps n rest
  | _ + 1, [] => [[]]
  | 0, [] => [[]]
  | 0, c :: rest =>
    match avMatchAt (c :: rest) with
    | some (_, len) => [] :: avScanGaps (len - 1) rest
    | none =>
      match avScanGaps 0 rest with
      | g :: gs => (c :: g) :: gs
      | [] => [[c]]

/-- Interleaving of gaps with numbered placeholders, the specification-side
description of `flag_av_tags`: the `i`-th match (0-indexed, left to right)
becomes `[anki:play]i[/anki:play]` and the gaps are kept verbatim. -/
def flagRender : List (List Char) → Nat → List Char
  | [], _ => []
  | [g], _ => g
  | g :: g2 :: gs, i => g ++ playTag i ++ flagRender (g2 :: gs) (i + 1)

/-- `strip_av_tags` on strings. -/
def strip_av_tags (s : String) : String := ⟨avScanStrip 0 s.data⟩

/-- `flag_av_tags` on strings; the closure counter starts at 0 for each
call. -/
def flag_av_tags (s : String) : String := ⟨avScanFlag 0 0 s.data⟩

/-- `av_tags_in_string` (the iterator collected into a list). -/
def av_tags_in_string (s : String) : List AVTag := avScanTags 0 s.data

/-- Is a character a double quote, single quote or `>` (excluded from the
`src` capture of the `IMG_TAG` regex)? -/
def isQuoteC (c : Char) : Bool := c = dquoteC ∨ c = squoteC

/-- Tail `["']?[^>]*>` of the `IMG_TAG` regex: an optional quote (greedy,
taken when present and the rest still matches) then everything up to and
including the first `>`. Returns the consumed length. -/
def imgTail : List Char → Option Nat
  | [] => none
  | c :: x2 =>
    if isQuoteC c then
      match findCharIdx '>' x2 with
      | some j => some (1 + j + 1)
      | none => none
    else
      (findCharIdx '>' (c :: x2)).map (· + 1)

/-- Greedy backtracking loop for the capture `([^"'>]+)` of `IMG_TAG`:
try capture lengths from `k` down to 1, followed by `imgTail`. -/
def imgCapTry (w : List Char) : Nat → Option (List Char × Nat)
  | 0 => none
  | k + 1 =>
    match imgTail (w.drop (k + 1)) with
    | some tl => some (w.take (k + 1), k + 1 + tl)
    | none => imgCapTry w k

/-- Capture part `([^"'>]+)["']?[^>]*>` of `IMG_TAG` at `w`. -/
def imgCapAt (w : List Char) : Option (List Char × Nat) :=
  imgCapTry w ((w.takeWhile (fun c => ¬(isQuoteC c ∨ c = '>'))).length)

/-- Continuation `src=["']?([^"'>]+)["']?[^>]*>` of `IMG_TAG` at `u`. -/
def imgCont (u : List Char) : Option (List Char × Nat) :=
  if preCI ("src=".data) u then
    match u.drop 4 with
    | q :: v2 =>
      if isQuoteC q then
        match imgCapAt v2 with
        | some (cap, l) => some (cap, 4 + 1 + l)
        | none => (imgCapAt (q :: v2)).map (fun p => (p.1, 4 + p.2))
      else (imgCapAt (q :: v2)).map (fun p => (p.1, 4 + p.2))
    | [] => none
  else none

/-- Greedy backtracking loop for `[^>]+` of `IMG_TAG`: try lengths from
`k` down to 1, each followed by the `src=` continuation. -/
def imgTryK (t : List Char) : Nat → Option (List Char × Nat)
  | 0 => none
  | k + 1 =>
    match imgCont (t.drop (k + 1)) with
    | some (cap, cl) => some (cap, k + 1 + cl)
    | none => imgTryK t k

/-- Leftmost-first match of the `IMG_TAG` regex
`(?i)<img[^>]+src=["']?([^"'>]+)["']?[^>]*>` starting exactly at the head
of `s`: returns the `src` capture and the match length. -/
def imgMatchAt (s : List Char) : Option (List Char × Nat) :=
  if preCI ("<img".data) s then
    (imgTryK (s.drop 4) (((s.drop 4).takeWhile (fun c => c ≠ '>')).length)).map
      (fun p => (p.1, 4 + p.2))
  else none

/-- Scanner implementing `IMG_TAG.replace_all(s, " $1 ")`. -/
def imgScan : Nat → List Char → List Char
  | n + 1, _ :: rest => imgScan n rest
  | _ + 1, [] => []
  | 0, [] => []
  | 0, c :: rest =>
    match imgMatchAt (c :: rest) with
    | some (cap, len) => ' ' :: (cap ++ ' ' :: imgScan (len - 1) rest)
    | none => c :: imgScan 0 rest

/-- `strip_html_preserving_image_filenames`: rewrite image tags to their
filenames, then strip the remaining HTML. -/
def strip_html_preserving_image_filenames (s : String) : String :=
  ⟨htmlScan [] 0 (imgScan 0 s.data)⟩

/-- Leftmost-first match of the `CLOZED_TEXT` regex
`(?s)\x7b\x7bc(\d+)::.+?\x7d\x7d` starting exactly at the head of `s`:
a greedy nonempty digit run, then `::`, then a lazy nonempty content up to
the earliest `\x7d\x7d`. Returns the parsed number and the match length. -/
def clozeMatchAt (s : List Char) : Option (Nat × Nat) :=
  if isPre [lbraceC, lbraceC, 'c'] s then
    match (s.drop 3).takeWhile Char.isDigit with
    | [] => none
    | d :: ds =>
      if isPre [':', ':'] ((s.drop 3).dropWhile Char.isDigit) then
        match findSfx [rbraceC, rbraceC]
            ((((s.drop 3).dropWhile Char.isDigit).drop 2).drop 1) with
        | some j =>
          some (digitsToNat (d :: ds), 3 + (d :: ds).length + 2 + (1 + j) + 2)
        | none => none
      else none
  else none

/-- Scanner implementing `CLOZED_TEXT.captures_iter`, yielding the parsed
numbers of the non-overlapping leftmost matches in order. -/
def clozeScan : Nat → List Char → List Nat
  | n + 1, _ :: rest => clozeScan n rest
  | _ + 1, [] => []
  | 0, [] => []
  | 0, c :: rest =>
    match clozeMatchAt (c :: rest) with
    | some (v, len) => v :: clozeScan (len - 1) rest
    | none => clozeScan 0 rest

/-- `cloze_numbers_in_string`: the set of numbers of all cloze matches
whose number parses as a `u16` (i.e. is at most 65535); out-of-range
numbers are skipped, duplicates collapse. -/
def cloze_numbers_in_string (s : String) : Finset Nat :=
  ((clozeScan 0 s.data).filter (fun n => n ≤ 65535)).toFinset

/-- Invariant of stripped text: no `<` is ever followed (anywhere later)
by a `>`. Every branch of the `HTML` regex needs a `<` with some later
`>`, so text with this property contains no further removable match. -/
def noLtGt : List Char → Prop
  | [] => True
  | c :: rest => (c = '<' → '>' ∉ rest) ∧ noLtGt rest

/-- Specification-side description for the voices assignment: the last
token of a list that starts with `voices=`, if any. -/
def lastVoicesTok : List (List Char) → Option (List Char)
  | [] => none
  | t :: ts =>
    match lastVoicesTok ts with
    | some u => some u
    | none => if isVoicesTok t then some t else none

/-- Join a list of pieces with a separator; inverse of `splitChar`. -/
def joinSep (sep : List Char) : List (List Char) → List Char
  | [] => []
  | [g] => g
  | g :: g2 :: gs => g ++ sep ++ joinSep sep (g2 :: gs)

/-- Specification-side reconstruction for the round-trip claim: the
multiset consisting of the voices re-joined into one logical
`voices=`-token (nothing when `voices` is empty) together with all other
args. -/
def ttsRecon (tag : AVTag) : Multiset String :=
  match tag with
  | AVTag.SoundOrVideo _ => 0
  | AVTag.TextToSpeech _ _ voices others =>
    (if voices = [] then 0
     else {String.mk ("voices=".data ++ joinSep [','] (voices.map String.data))}) +
      (↑others : Multiset String)

theorem mk_data (s : String) : String.mk s.data = s := by
  cases s
  rfl

/-- C8: for every text without an `&` character, `decode_entities` is the
identity (the fast path returns the input unchanged). -/
theorem decode_entities_no_amp_identity (t : String) (h : '&' ∉ t.data) :
    decode_entities t = t := by
  unfold decode_entities decodeEntitiesL
  rw [if_neg h]

theorem decode_entities_no_amp_identity_witness :
    '&' ∉ ("abc<b>" : String).data ∧ decode_entities "abc<b>" = "abc<b>" :=
  ⟨by decide, decode_entities_no_amp_identity "abc<b>" (by decide)⟩

/-- C1 (counterexample): on the input `"~&qqq;^"`, whose entity sequence is
malformed, `decode_entities` returns only the diagnostic string; the
surrounding characters `~` and `^` do not appear in the output, refuting
the claim that the text around the malformed span is still processed
normally and appears in the output. -/
theorem decode_entities_malformed_counterexample :
    '~' ∈ ("~&qqq;^" : String).data ∧ '^' ∈ ("~&qqq;^" : String).data ∧
    decode_entities "~&qqq;^" = "DecodeErr \x7b position: 1, kind: UnknownEntity \x7d" ∧
    '~' ∉ (decode_entities "~&qqq;^").data ∧
    '^' ∉ (decode_entities "~&qqq;^").data := by
  refine ⟨by decide, by decide, by rfl, by decide, by decide⟩

/-- C1 (amended): on an input containing `&` whose decode attempt fails,
`decode_entities` still returns successfully (it is a total function), but
the whole returned text is the formatted diagnostic of the decode error;
the text surrounding the malformed span is discarded, not preserved. -/
theorem decode_entities_malformed_diagnostic (s : String) (e : DecodeErr)
    (h1 : '&' ∈ s.data) (h2 : decodeAux 0 0 s.data = Except.error e) :
    decode_entities s = ⟨formatErr e⟩ := by
  unfold decode_entities decodeEntitiesL
  rw [if_pos h1, h2]

theorem decode_entities_malformed_diagnostic_witness :
    '&' ∈ ("~&qqq;^" : String).data ∧
    decode_entities "~&qqq;^" = ⟨formatErr ⟨1, DecodeErrKind.unknownEntity⟩⟩ :=
  ⟨by decide, decode_entities_malformed_diagnostic "~&qqq;^" ⟨1, DecodeErrKind.unknownEntity⟩
    (by decide) (by rfl)⟩

/-- C3: on the reference input, `av_tags_in_string` yields exactly the
entity-decoded sound tag followed by the TTS tag with stripped and decoded
field text, language `en_US`, voices `Bob`, `Jane` and no other args; and
`strip_av_tags` removes both directives. -/
theorem av_tags_example :
    av_tags_in_string
        "abc[sound:fo&amp;o.mp3]def[anki:tts][en_US voices=Bob,Jane]foo<br>1&gt;2[/anki:tts]gh" =
      [AVTag.SoundOrVideo "fo&o.mp3",
        AVTag.TextToSpeech "foo 1>2" "en_US" ["Bob", "Jane"] []] ∧
    strip_av_tags
        "abc[sound:fo&amp;o.mp3]def[anki:tts][en_US voices=Bob,Jane]foo<br>1&gt;2[/anki:tts]gh" =
      "abcdefgh" :=
  ⟨by rfl, by rfl⟩

/-- C7: `strip_html_preserving_image_filenames` is image-rewriting followed
by HTML stripping; when neither step changes anything the original input
comes back unchanged; and it maps the reference inputs as specified. -/
theorem strip_html_preserving_image_filenames_spec :
    (∀ t : String,
      strip_html_preserving_image_filenames t = ⟨htmlScan [] 0 (imgScan 0 t.data)⟩) ∧
    (∀ t : String, imgScan 0 t.data = t.data → htmlScan [] 0 t.data = t.data →
      strip_html_preserving_image_filenames t = t) ∧
    strip_html_preserving_image_filenames "<img src=\x27foo.jpg\x27><html>" = " foo.jpg " ∧
    strip_html_preserving_image_filenames "<html>" = "" ∧
    strip_html_preserving_image_filenames "<img src=foo.jpg>" = " foo.jpg " := by
  refine ⟨fun t => rfl, fun t h1 h2 => ?_, by rfl, by rfl, by rfl⟩
  unfold strip_html_preserving_image_filenames
  rw [h1, h2]

theorem strip_html_preserving_image_filenames_spec_witness :
    imgScan 0 ("no tags" : String).data = ("no tags" : String).data ∧
    htmlScan [] 0 ("no tags" : String).data = ("no tags" : String).data ∧
    strip_html_preserving_image_filenames "no tags" = "no tags" :=
  ⟨by rfl, by rfl,
    strip_html_preserving_image_filenames_spec.2.1 "no tags" (by rfl) (by rfl)⟩

/-- C5: `cloze_numbers_in_string` collects the deduplicated set of cloze
numbers: adjacent markers match separately, duplicates collapse, an
out-of-range number (not fitting `u16`) is silently skipped, every member
of the result is at most 65535, and the two reference inputs evaluate as
specified. -/
theorem cloze_numbers_spec :
    cloze_numbers_in_string "\x7b\x7bc2::te\x7d\x7d\x7b\x7bc1::s\x7d\x7dt\x7b\x7b" = {1, 2} ∧
    cloze_numbers_in_string "test" = ∅ ∧
    cloze_numbers_in_string "\x7b\x7bc1::a\x7d\x7d\x7b\x7bc1::b\x7d\x7d" = {1} ∧
    cloze_numbers_in_string "\x7b\x7bc65536::x\x7d\x7d" = ∅ ∧
    ∀ (t : String) (n : Nat), n ∈ cloze_numbers_in_string t → n ≤ 65535 := by
  refine ⟨by decide, by decide, by decide, by decide, ?_⟩
  intro t n hn
  unfold cloze_numbers_in_string at hn
  rw [List.mem_toFinset, List.mem_filter] at hn
  exact of_decide_eq_true hn.2

theorem cloze_numbers_spec_witness : (2 : Nat) ≤ 65535 :=
  cloze_numbers_spec.2.2.2.2 "\x7b\x7bc2::te\x7d\x7d" 2 (by decide)

/-- C10 (counterexample): the text `"\x7b\x7bc1::\x7d\x7d\x7b\x7bc2::\x7d\x7d"`
consists of two empty-content cloze markers only, yet
`cloze_numbers_in_string` returns `\x7b1\x7d`, not the empty set: the
closing braces of the second marker serve as the (nonempty) content of a
match starting at the first marker. -/
theorem cloze_empty_marker_counterexample :
    cloze_numbers_in_string "\x7b\x7bc1::\x7d\x7d\x7b\x7bc2::\x7d\x7d" = {1} ∧
    cloze_numbers_in_string "\x7b\x7bc1::\x7d\x7d\x7b\x7bc2::\x7d\x7d" ≠ ∅ := by
  refine ⟨by decide, by decide⟩

theorem isPre_mem {p s : List Char} (h : isPre p s = true) : ∀ x ∈ p, x ∈ s := by
  induction p generalizing s with
  | nil => intro x hx; exact absurd hx (List.not_mem_nil x)
  | cons a ps ih =>
    cases s with
    | nil => exact absurd h (by simp [isPre])
    | cons c cs =>
      rw [isPre] at h
      by_cases hac : a = c
      · rw [if_pos hac] at h
        intro x hx
        rcases List.mem_cons.mp hx with hxa | hxp
        · exact hxa ▸ hac ▸ List.mem_cons_self c cs
        · exact List.mem_cons_of_mem c (ih h x hxp)
      · rw [if_neg hac] at h
        exact absurd h (by simp)

theorem findSfx_some {pat s : List Char} {j : Nat} (h : findSfx pat s = some j) :
    isPre pat (s.drop j) = true := by
  induction s generalizing j with
  | nil =>
    rw [findSfx] at h
    by_cases hp : isPre pat [] = true
    · rw [if_pos hp] at h
      cases h
      exact hp
    · rw [if_neg hp] at h
      cases h
  | cons c rest ih =>
    rw [findSfx] at h
    by_cases hp : isPre pat (c :: rest) = true
    · rw [if_pos hp] at h
      cases h
      exact hp
    · rw [if_neg hp] at h
      rcases Option.map_eq_some'.mp h with ⟨j0, hj0, hj⟩
      subst hj
      rw [List.drop_succ_cons]
      exact ih hj0

theorem findCharIdx_mem {ch : Char} {s : List Char} {j : Nat}
    (h : findCharIdx ch s = some j) : ch ∈ s := by
  induction s generalizing j with
  | nil => cases h
  | cons c rest ih =>
    rw [findCharIdx] at h
    by_cases hc : c = ch
    · exact hc ▸ List.mem_cons_self c rest
    · rw [if_neg hc] at h
      rcases Option.map_eq_some'.mp h with ⟨j0, hj0, _⟩
      exact List.mem_cons_of_mem c (ih hj0)

theorem findCharIdx_none {ch : Char} {s : List Char}
    (h : findCharIdx ch s = none) : ch ∉ s := by
  induction s with
  | nil => exact List.not_mem_nil ch
  | cons c rest ih =>
    rw [findCharIdx] at h
    by_cases hc : c = ch
    · rw [if_pos hc] at h
      cases h
    · rw [if_neg hc] at h
      intro hmem
      rcases List.mem_cons.mp hmem with h1 | h2
      · exact hc h1.symm
      · exact ih (by cases he : findCharIdx ch rest with
          | none => rfl
          | some v => rw [he] at h; cases h) h2

theorem firstSome_none {a b : Option Nat} (h : firstSome a b = none) :
    a = none ∧ b = none := by
  cases a with
  | none => exact ⟨rfl, h⟩
  | some x => cases h

theorem htmlMatchLen_some_gt {s : List Char} {n : Nat}
    (h : htmlMatchLen s = some n) : ∃ rest, s = '<' :: rest ∧ '>' ∈ rest := by
  cases s with
  | nil => cases h
  | cons c rest =>
    rw [htmlMatchLen] at h
    by_cases hc : c = '<'
    · subst hc
      refine ⟨rest, rfl, ?_⟩
      rw [if_pos rfl] at h
      cases h1 : commentLen rest with
      | some v =>
        rw [commentLen] at h1
        by_cases hp : isPre ("!--".data) rest = true
        · rw [if_pos hp] at h1
          rcases Option.map_eq_some'.mp h1 with ⟨j, hj, _⟩
          have := isPre_mem (findSfx_some hj) '>' (by decide)
          exact List.drop_subset 3 rest (List.drop_subset j (rest.drop 3) this)
        · rw [if_neg hp] at h1
          cases h1
      | none =>
        rw [h1] at h
        simp only [firstSome] at h
        cases h2 : blockLen ("style".data) ("</style>".data) rest with
        | some v =>
          rw [blockLen] at h2
          by_cases hp : preCI ("style".data) rest = true
          · rw [if_pos hp] at h2
            cases h3 : findCharIdx '>' (rest.drop ("style".data).length) with
            | some j =>
              exact List.drop_subset _ rest (findCharIdx_mem h3)
            | none => rw [h3] at h2; cases h2
          · rw [if_neg hp] at h2
            cases h2
        | none =>
          rw [h2] at h
          simp only [firstSome] at h
          cases h3 : blockLen ("script".data) ("</script>".data) rest with
          | some v =>
            rw [blockLen] at h3
            by_cases hp : preCI ("script".data) rest = true
            · rw [if_pos hp] at h3
              cases h4 : findCharIdx '>' (rest.drop ("script".data).length) with
              | some j =>
                exact List.drop_subset _ rest (findCharIdx_mem h4)
              | none => rw [h4] at h3; cases h3
            · rw [if_neg hp] at h3
              cases h3
          | none =>
            rw [h3] at h
            simp only [firstSome] at h
            cases h4 : findCharIdx '>' rest with
            | some j => exact findCharIdx_mem h4
            | none => rw [tagLen, h4] at h; cases h
    · rw [if_neg hc] at h
      cases h

theorem htmlMatchLen_none_gt {rest : List Char}
    (h : htmlMatchLen ('<' :: rest) = none) : '>' ∉ rest := by
  rw [htmlMatchLen, if_pos rfl] at h
  have h1 := (firstSome_none h).2
  have h2 := (firstSome_none h1).2
  have h3 := (firstSome_none h2).2
  rw [tagLen] at h3
  cases h4 : findCharIdx '>' rest with
  | none => exact findCharIdx_none h4
  | some j => rw [h4] at h3; cases h3

theorem htmlScan_skip (r : List Char) (n : Nat) (s : List Char) :
    htmlScan r n s = htmlScan r 0 (s.drop n) := by
  induction s generalizing n with
  | nil =>
    cases n with
    | zero => rfl
    | succ m => rfl
  | cons c rest ih =>
    cases n with
    | zero => rfl
    | succ m =>
      rw [List.drop_succ_cons, ← ih m]
      rfl

theorem htmlScan_sublist (n : Nat) (s : List Char) :
    List.Sublist (htmlScan [] n s) s := by
  induction s generalizing n with
  | nil =>
    cases n with
    | zero => exact List.Sublist.refl []
    | succ m => exact List.Sublist.refl []
  | cons c rest ih =>
    cases n with
    | zero =>
      cases h : htmlMatchLen (c :: rest) with
      | some len =>
        have : htmlScan [] 0 (c :: rest) = htmlScan [] (len - 1) rest := by
          rw [htmlScan, h]
          simp
        rw [this]
        exact (ih (len - 1)).cons c
      | none =>
        have : htmlScan [] 0 (c :: rest) = c :: htmlScan [] 0 rest := by
          rw [htmlScan, h]
        rw [this]
        exact (ih 0).cons₂ c
    | succ m =>
      have : htmlScan [] (m + 1) (c :: rest) = htmlScan [] m rest := rfl
      rw [this]
      exact (ih m).cons c

theorem strip_of_noLtGt {s : List Char} (h : noLtGt s) : htmlScan [] 0 s = s := by
  induction s with
  | nil => rfl
  | cons c rest ih =>
    rw [noLtGt] at h
    have hnone : htmlMatchLen (c :: rest) = none := by
      cases hm : htmlMatchLen (c :: rest) with
      | none => rfl
      | some v =>
        rcases htmlMatchLen_some_gt hm with ⟨r2, hr2, hgt⟩
        cases hr2
        exact absurd hgt (h.1 rfl)
    rw [htmlScan, hnone]
    exact congrArg (c :: ·) (ih h.2)

theorem noLtGt_scan (s : List Char) : noLtGt (htmlScan [] 0 s) := by
  have H : ∀ (n : Nat) (s : List Char), s.length ≤ n → noLtGt (htmlScan [] 0 s) := by
    intro n
    induction n with
    | zero =>
      intro s hs
      rw [List.length_eq_zero.mp (Nat.le_zero.mp hs)]
      exact trivial
    | succ m ih =>
      intro s hs
      cases s with
      | nil => exact trivial
      | cons c rest =>
        cases h : htmlMatchLen (c :: rest) with
        | some len =>
          have h1 : htmlScan [] 0 (c :: rest) = htmlScan [] 0 (rest.drop (len - 1)) := by
            rw [htmlScan, h]
            simp [htmlScan_skip]
          rw [h1]
          apply ih
          calc (rest.drop (len - 1)).length ≤ rest.length := by
                rw [List.length_drop]; omega
            _ ≤ m := by
                have := List.length_cons c rest ▸ hs
                omega
        | none =>
          have h1 : htmlScan [] 0 (c :: rest) = c :: htmlScan [] 0 rest := by
            rw [htmlScan, h]
          rw [h1, noLtGt]
          constructor
          · intro hc hmem
            cases hc
            exact htmlMatchLen_none_gt h ((htmlScan_sublist 0 rest).subset hmem)
          · apply ih
            have := List.length_cons c rest ▸ hs
            omega
  exact H s.length s le_rfl

theorem noLtGt_drop (i : Nat) {s : List Char} (h : noLtGt s) : noLtGt (s.drop i) := by
  induction i generalizing s with
  | zero => exact h
  | succ m ih =>
    cases s with
    | nil => exact trivial
    | cons c rest =>
      rw [List.drop_succ_cons]
      exact ih (noLtGt.eq_2 c rest ▸ h).2

theorem noLtGt_matchNone {s : List Char} (h : noLtGt s) : htmlMatchLen s = none := by
  cases s with
  | nil => rfl
  | cons c rest =>
    rw [noLtGt] at h
    cases hm : htmlMatchLen (c :: rest) with
    | none => rfl
    | some v =>
      rcases htmlMatchLen_some_gt hm with ⟨r2, hr2, hgt⟩
      cases hr2
      exact absurd hgt (h.1 rfl)

/-- C2: `strip_html` is idempotent on every input: one pass removes all
matches of the `HTML` regex (comments, style/script blocks, generic tags),
the output contains no further removable match at any position, and a
second pass is the identity. -/
theorem strip_html_idempotent (t : String) :
    strip_html (strip_html t) = strip_html t ∧
    ∀ i : Nat, htmlMatchLen ((strip_html t).data.drop i) = none := by
  constructor
  · exact congrArg String.mk (strip_of_noLtGt (noLtGt_scan t.data))
  · intro i
    exact noLtGt_matchNone (noLtGt_drop i (noLtGt_scan t.data))

theorem avScanGaps_ne_nil (n : Nat) (s : List Char) : avScanGaps n s ≠ [] := by
  induction s generalizing n with
  | nil =>
    cases n with
    | zero => simp [avScanGaps]
    | succ m => simp [avScanGaps]
  | cons c rest ih =>
    cases n with
    | succ m => exact ih m
    | zero =>
      cases h : avMatchAt (c :: rest) with
      | some p =>
        obtain ⟨cap, len⟩ := p
        rw [avScanGaps, h]
        simp
      | none =>
        rw [avScanGaps, h]
        cases hg : avScanGaps 0 rest with
        | nil => simp
        | cons g gs => simp

theorem avScanFlag_render (s : List Char) : ∀ (i n : Nat),
    avScanFlag i n s = flagRender (avScanGaps n s) i := by
  induction s with
  | nil =>
    intro i n
    cases n with
    | zero => rfl
    | succ m => rfl
  | cons c rest ih =>
    intro i n
    cases n with
    | succ m => exact ih i m
    | zero =>
      cases h : avMatchAt (c :: rest) with
      | some p =>
        obtain ⟨cap, len⟩ := p
        have eF : avScanFlag i 0 (c :: rest) = playTag i ++ avScanFlag (i + 1) (len - 1) rest := by
          rw [avScanFlag, h]
        have eG : avScanGaps 0 (c :: rest) = [] :: avScanGaps (len - 1) rest := by
          rw [avScanGaps, h]
        rw [eF, eG]
        cases hg : avScanGaps (len - 1) rest with
        | nil => exact absurd hg (avScanGaps_ne_nil (len - 1) rest)
        | cons g gs =>
          rw [flagRender, ← hg, ← ih (i + 1) (len - 1)]
          rfl
      | none =>
        have eF : avScanFlag i 0 (c :: rest) = c :: avScanFlag i 0 rest := by
          rw [avScanFlag, h]
        rw [eF]
        cases hg : avScanGaps 0 rest with
        | nil => exact absurd hg (avScanGaps_ne_nil 0 rest)
        | cons g gs =>
          have eG : avScanGaps 0 (c :: rest) = (c :: g) :: gs := by
            rw [avScanGaps, h, hg]
          rw [eG]
          have ihr : avScanFlag i 0 rest = flagRender (g :: gs) i := hg ▸ ih i 0
          cases gs with
          | nil =>
            rw [ihr, flagRender, flagRender]
          | cons g2 gs2 =>
            rw [ihr, flagRender, flagRender]
            simp

theorem avScanStrip_flatten (s : List Char) : ∀ (n : Nat),
    avScanStrip n s = (avScanGaps n s).flatten := by
  induction s with
  | nil =>
    intro n
    cases n with
    | zero => rfl
    | succ m => rfl
  | cons c rest ih =>
    intro n
    cases n with
    | succ m => exact ih m
    | zero =>
      cases h : avMatchAt (c :: rest) with
      | some p =>
        obtain ⟨cap, len⟩ := p
        have eS : avScanStrip 0 (c :: rest) = avScanStrip (len - 1) rest := by
          rw [avScanStrip, h]
        have eG : avScanGaps 0 (c :: rest) = [] :: avScanGaps (len - 1) rest := by
          rw [avScanGaps, h]
        rw [eS, eG, List.flatten_cons, List.nil_append]
        exact ih (len - 1)
      | none =>
        have eS : avScanStrip 0 (c :: rest) = c :: avScanStrip 0 rest := by
          rw [avScanStrip, h]
        rw [eS]
        cases hg : avScanGaps 0 rest with
        | nil => exact absurd hg (avScanGaps_ne_nil 0 rest)
        | cons g gs =>
          have eG : avScanGaps 0 (c :: rest) = (c :: g) :: gs := by
            rw [avScanGaps, h, hg]
          rw [eG]
          have ihr : avScanStrip 0 rest = (g :: gs).flatten := hg ▸ ih 0
          rw [ihr]
          simp [List.flatten_cons]

/-- C4: `flag_av_tags` is exactly the interleaving of the unmatched gap
text (kept verbatim, in order) with the placeholder
`[anki:play]N[/anki:play]` substituted for the `N`-th directive match
(0-indexed, left to right); the counter starts at 0 on each call (the
function is pure, so it is local to the call); `strip_av_tags` of the same
text is the concatenation of the same gaps; and the reference input maps
to the specified flagged text. -/
theorem flag_av_tags_spec (t : String) :
    flag_av_tags t = String.mk (flagRender (avScanGaps 0 t.data) 0) ∧
    strip_av_tags t = String.mk ((avScanGaps 0 t.data).flatten) ∧
    flag_av_tags
        "abc[sound:fo&amp;o.mp3]def[anki:tts][en_US voices=Bob,Jane]foo<br>1&gt;2[/anki:tts]gh" =
      "abc[anki:play]0[/anki:play]def[anki:play]1[/anki:play]gh" := by
  refine ⟨?_, ?_, by rfl⟩
  · exact congrArg String.mk (avScanFlag_render t.data 0 0)
  · exact congrArg String.mk (avScanStrip_flatten t.data 0)

theorem data_mk (l : List Char) : (String.mk l).data = l := rfl

theorem ttsLoop_spec (ts : List (List Char)) : ∀ (v : Option (List (List Char)))
    (acc : List (List Char)),
    ttsLoop ts v acc =
      ((match lastVoicesTok ts with
        | some t => voicesVal t
        | none => v),
       acc ++ ts.filter (fun t => !(isVoicesTok t))) := by
  induction ts with
  | nil =>
    intro v acc
    simp [ttsLoop, lastVoicesTok]
  | cons t ts ih =>
    intro v acc
    rw [ttsLoop]
    cases hv : isVoicesTok t with
    | true =>
      rw [if_pos rfl]
      rw [ih (voicesVal t) acc]
      rw [lastVoicesTok]
      cases hl : lastVoicesTok ts with
      | some u => simp [List.filter_cons, hv]
      | none => simp [List.filter_cons, hv]
    | false =>
      rw [if_neg Bool.false_ne_true]
      rw [ih v (acc ++ [t])]
      rw [lastVoicesTok]
      cases hl : lastVoicesTok ts with
      | some u => simp [List.filter_cons, hv]
      | none => simp [List.filter_cons, hv]

/-- C6: the `voices` field of a parsed TTS tag is determined solely by the
last `voices=` token of the argument string (each occurrence reassigns,
none accumulate), earlier `voices=` tokens are discarded entirely and in
particular never appear in `other_args`, which consists exactly of the
non-`voices=` tokens; on `"en voices=A voices=B"` the result has voices
`["B"]` and empty other args. -/
theorem tts_voices_last_wins :
    (∀ (f args : List Char),
      (tts_tag_from_string f args).voicesOf =
        ((match lastVoicesTok ((splitChar ' ' args).drop 1) with
          | some t => voicesVal t
          | none => none).getD []).map (fun v => String.mk v) ∧
      (tts_tag_from_string f args).otherArgsOf =
        (((splitChar ' ' args).drop 1).filter (fun t => !(isVoicesTok t))).map
          (fun t => String.mk t)) ∧
    (tts_tag_from_string [] ("en voices=A voices=B").data).voicesOf = ["B"] ∧
    (tts_tag_from_string [] ("en voices=A voices=B").data).otherArgsOf = [] := by
  refine ⟨?_, by rfl, by rfl⟩
  intro f args
  constructor
  · simp only [tts_tag_from_string, ttsLoop_spec, AVTag.voicesOf]
  · simp only [tts_tag_from_string, ttsLoop_spec, AVTag.otherArgsOf, List.nil_append]

theorem splitChar_ne_nil (sep : Char) (s : List Char) : splitChar sep s ≠ [] := by
  induction s with
  | nil => simp [splitChar]
  | cons c rest ih =>
    rw [splitChar]
    cases hg : splitChar sep rest with
    | nil => by_cases hc : c = sep <;> simp [hc]
    | cons g gs => by_cases hc : c = sep <;> simp [hc]

theorem splitChar_sep_append {sep : Char} {xs : List Char} (ys : List Char)
    (h : sep ∉ xs) : splitChar sep (xs ++ sep :: ys) = xs :: splitChar sep ys := by
  induction xs with
  | nil =>
    rw [List.nil_append, splitChar]
    cases hg : splitChar sep ys with
    | nil => exact absurd hg (splitChar_ne_nil sep ys)
    | cons g gs => simp
  | cons x xs ih =>
    have hxs : sep ∉ xs := fun hm => h (List.mem_cons_of_mem x hm)
    have hx : ¬(x = sep) := fun he => h (he ▸ List.mem_cons_self x xs)
    rw [List.cons_append, splitChar, ih hxs]
    simp [hx]

theorem splitChar_no_sep {sep : Char} {v : List Char} (h : sep ∉ v) :
    splitChar sep v = [v] := by
  induction v with
  | nil => rfl
  | cons c rest ih =>
    have hr : sep ∉ rest := fun hm => h (List.mem_cons_of_mem c hm)
    have hc : ¬(c = sep) := fun he => h (he ▸ List.mem_cons_self c rest)
    rw [splitChar, ih hr]
    simp [hc]

theorem joinSep_splitChar (sep : Char) (v : List Char) :
    joinSep [sep] (splitChar sep v) = v := by
  induction v with
  | nil => rfl
  | cons c rest ih =>
    rw [splitChar]
    cases hg : splitChar sep rest with
    | nil => exact absurd hg (splitChar_ne_nil sep rest)
    | cons g gs =>
      rw [hg] at ih
      by_cases hc : c = sep
      · subst hc
        simp only [if_pos rfl]
        cases gs with
        | nil =>
          simp [joinSep] at ih ⊢
          exact ih
        | cons g2 gs2 =>
          simp [joinSep] at ih ⊢
          exact ih
      · simp only [if_neg hc]
        cases gs with
        | nil =>
          simp [joinSep] at ih ⊢
          simp [ih]
        | cons g2 gs2 =>
          simp [joinSep] at ih ⊢
          simp [ih]

theorem isPre_append_drop {p t : List Char} (h : isPre p t = true) :
    t = p ++ t.drop p.length := by
  induction p generalizing t with
  | nil => simp
  | cons a ps ih =>
    cases t with
    | nil => exact absurd h (by simp [isPre])
    | cons c cs =>
      rw [isPre] at h
      by_cases hac : a = c
      · rw [if_pos hac] at h
        rw [hac, List.cons_append, List.length_cons, List.drop_succ_cons]
        exact congrArg (c :: ·) (ih h)
      · rw [if_neg hac] at h
        exact absurd h (by simp)

theorem map_data_map_mk (l : List (List Char)) :
    (l.map (fun t => String.mk t)).map String.data = l := by
  induction l with
  | nil => rfl
  | cons t ts ih => rw [List.map_cons, List.map_cons, ih, data_mk]

theorem lastVoicesTok_filter_nil {ts : List (List Char)}
    (h : ts.filter (fun t => isVoicesTok t) = []) : lastVoicesTok ts = none := by
  induction ts with
  | nil => rfl
  | cons t ts ih =>
    rw [List.filter_cons] at h
    cases hv : isVoicesTok t with
    | true => rw [hv] at h; simp at h
    | false =>
      rw [hv] at h
      simp only [Bool.false_eq_true, if_false] at h
      rw [lastVoicesTok, ih h]
      simp [hv]

theorem lastVoicesTok_filter_single {ts : List (List Char)} {t0 : List Char}
    (h : ts.filter (fun t => isVoicesTok t) = [t0]) : lastVoicesTok ts = some t0 := by
  induction ts with
  | nil => cases h
  | cons t ts ih =>
    rw [List.filter_cons] at h
    cases hv : isVoicesTok t with
    | true =>
      rw [hv] at h
      simp only [if_true] at h
      have ht : t = t0 := (List.cons_eq_cons.mp h).1
      have hts : ts.filter (fun t => isVoicesTok t) = [] := (List.cons_eq_cons.mp h).2
      rw [lastVoicesTok, lastVoicesTok_filter_nil hts, ht]
      simp [ht ▸ hv]
    | false =>
      rw [hv] at h
      simp only [Bool.false_eq_true, if_false] at h
      rw [lastVoicesTok, ih h]

theorem filter_not_of_filter_nil {ts : List (List Char)}
    (h : ts.filter (fun t => isVoicesTok t) = []) :
    ts.filter (fun t => !(isVoicesTok t)) = ts := by
  induction ts with
  | nil => rfl
  | cons t ts ih =>
    rw [List.filter_cons] at h
    cases hv : isVoicesTok t with
    | true => rw [hv] at h; simp at h
    | false =>
      rw [hv] at h
      simp only [Bool.false_eq_true, if_false] at h
      rw [List.filter_cons, hv]
      simp only [Bool.not_false, if_true]
      rw [ih h]

/-- C9 (counterexample): for the TTS argument string
`"en voices=A voices=B"` (two `voices=` tokens), the union of the
reconstructed voices token and the other args is the single token
`voices=B`; the original token multiset minus the lang token is
`\x7bvoices=A, voices=B\x7d`, so the round-trip claim fails: the earlier
`voices=` token is lost. -/
theorem tts_roundtrip_counterexample :
    ((splitChar ' ' ("en voices=A voices=B").data).drop 1).map (fun t => String.mk t) =
      ["voices=A", "voices=B"] ∧
    ttsRecon (tts_tag_from_string [] ("en voices=A voices=B").data) =
      ({"voices=B"} : Multiset String) ∧
    ttsRecon (tts_tag_from_string [] ("en voices=A voices=B").data) ≠
      (↑(["voices=A", "voices=B"] : List String) : Multiset String) := by
  refine ⟨by decide, by decide, by decide⟩

/-- C9 (amended): for a TTS argument string in which at most one token
after the lang token starts with `voices=` and that token's value (the
text after `voices=`) contains no further `=`, the union of the parsed
voices (re-joined into one comma-separated logical token) and the other
args reconstructs the original token multiset minus the lang token. With
two or more `voices=` tokens (or a value containing `=`) the property
fails, since reassignment keeps only the last token and the split on `=`
keeps only the first value segment. -/
theorem tts_roundtrip_amended (args : List Char)
    (h1 : (((splitChar ' ' args).drop 1).filter (fun t => isVoicesTok t)).length ≤ 1)
    (h2 : ∀ t ∈ (splitChar ' ' args).drop 1, isVoicesTok t = true → '=' ∉ t.drop 7) :
    ∀ f, ttsRecon (tts_tag_from_string f args) =
      ↑(((splitChar ' ' args).drop 1).map (fun t => String.mk t)) := by
  intro f
  have hrw : tts_tag_from_string f args =
      AVTag.TextToSpeech ⟨stripForTtsL f⟩ ⟨(splitChar ' ' args).headD []⟩
        (((match lastVoicesTok ((splitChar ' ' args).drop 1) with
           | some t => voicesVal t
           | none => none).getD []).map (fun v => String.mk v))
        ((((splitChar ' ' args).drop 1).filter (fun t => !(isVoicesTok t))).map
          (fun t => String.mk t)) := by
    simp only [tts_tag_from_string, ttsLoop_spec, List.nil_append]
  rw [hrw]
  simp only [ttsRecon]
  cases hf : ((splitChar ' ' args).drop 1).filter (fun t => isVoicesTok t) with
  | nil =>
    simp only [lastVoicesTok_filter_nil hf, Option.getD_none, List.map_nil,
      filter_not_of_filter_nil hf]
    simp
  | cons t0 ts0 =>
    cases ts0 with
    | cons t1 ts1 =>
      rw [hf] at h1
      simp at h1
    | nil =>
      have hv : isVoicesTok t0 = true :=
        List.of_mem_filter (p := fun t => isVoicesTok t)
          (l := (splitChar ' ' args).drop 1)
          (by rw [hf]; exact List.mem_cons_self t0 [])
      have ht0mem : t0 ∈ (splitChar ' ' args).drop 1 :=
        List.mem_of_mem_filter (p := fun t => isVoicesTok t)
          (by rw [hf]; exact List.mem_cons_self t0 [])
      have heq : t0 = "voices=".data ++ t0.drop 7 := by
        have h3 : isPre ("voices=".data) t0 = true := hv
        have h4 := isPre_append_drop h3
        simpa using h4
      have hne : '=' ∉ t0.drop 7 := h2 t0 ht0mem hv
      have hsplit : splitChar '=' t0 = ["voices".data, t0.drop 7] := by
        conv_lhs => rw [heq]
        have h5 : "voices=".data ++ t0.drop 7 = "voices".data ++ '=' :: t0.drop 7 := rfl
        rw [h5, splitChar_sep_append _ (by decide), splitChar_no_sep hne]
      have hvval : voicesVal t0 = some (splitChar ',' (t0.drop 7)) := by
        rw [voicesVal, hsplit]
        rfl
      simp only [lastVoicesTok_filter_single hf, hvval, Option.getD_some]
      have hnil : ¬((splitChar ',' (t0.drop 7)).map (fun v => String.mk v) = []) := by
        intro hcontra
        exact splitChar_ne_nil ',' (t0.drop 7) (List.map_eq_nil_iff.mp hcontra)
      rw [if_neg hnil]
      have htok : "voices=".data ++
          joinSep [','] (((splitChar ',' (t0.drop 7)).map (fun v => String.mk v)).map
            String.data) = t0 := by
        rw [map_data_map_mk, joinSep_splitChar]
        exact heq.symm
      rw [htok]
      have hperm : (t0 :: ((splitChar ' ' args).drop 1).filter
          (fun t => !(isVoicesTok t))).Perm ((splitChar ' ' args).drop 1) := by
        have := List.filter_append_perm (fun t => isVoicesTok t) ((splitChar ' ' args).drop 1)
        rw [hf] at this
        simpa using this
      have hpm := hperm.map (fun t => String.mk t)
      rw [Multiset.singleton_add, Multiset.cons_coe]
      exact Multiset.coe_eq_coe.mpr (by simpa using hpm)

theorem tts_roundtrip_amended_witness :
    ttsRecon (tts_tag_from_string [] ("en_US voices=Bob,Jane x").data) =
      ↑(((splitChar ' ' ("en_US voices=Bob,Jane x").data).drop 1).map
        (fun t => String.mk t)) :=
  tts_roundtrip_amended ("en_US voices=Bob,Jane x").data (by decide) (by decide) []

theorem takeWhile_append_all {p : Char → Bool} {l1 : List Char} (l2 : List Char)
    (h : ∀ c ∈ l1, p c = true) :
    (l1 ++ l2).takeWhile p = l1 ++ l2.takeWhile p := by
  induction l1 with
  | nil => simp
  | cons a l1 ih =>
    rw [List.cons_append, List.takeWhile_cons, h a (List.mem_cons_self a l1)]
    simp only [if_true]
    rw [List.cons_append, ih (fun c hc => h c (List.mem_cons_of_mem a hc))]

theorem dropWhile_append_all {p : Char → Bool} {l1 : List Char} (l2 : List Char)
    (h : ∀ c ∈ l1, p c = true) :
    (l1 ++ l2).dropWhile p = l2.dropWhile p := by
  induction l1 with
  | nil => simp
  | cons a l1 ih =>
    rw [List.cons_append, List.dropWhile_cons, h a (List.mem_cons_self a l1)]
    simp only [if_true]
    exact ih (fun c hc => h c (List.mem_cons_of_mem a hc))

theorem clozeScan_no_lbrace {s : List Char} (h : lbraceC ∉ s) : clozeScan 0 s = [] := by
  induction s with
  | nil => rfl
  | cons c rest ih =>
    have hc : ¬(lbraceC = c) := fun he => h (by rw [he]; exact List.mem_cons_self c rest)
    have hm : clozeMatchAt (c :: rest) = none := by
      simp [clozeMatchAt, isPre, hc]
    simp only [clozeScan, hm]
    exact ih (fun hmem => h (List.mem_cons_of_mem c hmem))

theorem clozeScan_cons_none {c : Char} {rest : List Char}
    (h : clozeMatchAt (c :: rest) = none) :
    clozeScan 0 (c :: rest) = clozeScan 0 rest := by
  conv_lhs => rw [clozeScan]
  rw [h]

/-- C10 (amended): an empty-content cloze marker cannot match on its own
(the content part of the pattern needs at least one character): for every
nonempty digit string `N`, a text consisting of the single marker
`\x7b\x7bcN::\x7d\x7d` produces the empty set. The original universal claim
fails for texts with several empty markers, where the closing braces of a
later marker can serve as content for an earlier one. -/
theorem cloze_empty_marker_amended (ds : List Char) (h1 : ds ≠ [])
    (h2 : ∀ c ∈ ds, c.isDigit = true) :
    cloze_numbers_in_string
      ⟨lbraceC :: lbraceC :: 'c' :: (ds ++ [':', ':', rbraceC, rbraceC])⟩ = ∅ := by
  obtain ⟨d0, ds0, rfl⟩ : ∃ d0 ds0, ds = d0 :: ds0 := by
    cases ds with
    | nil => exact absurd rfl h1
    | cons d0 ds0 => exact ⟨d0, ds0, rfl⟩
  have e3 : ((d0 :: ds0) ++ [':', ':', rbraceC, rbraceC]).takeWhile Char.isDigit =
      d0 :: ds0 := by
    rw [takeWhile_append_all _ h2]
    have h5 : ([':', ':', rbraceC, rbraceC] : List Char).takeWhile Char.isDigit = [] := by rfl
    rw [h5, List.append_nil]
  have e4 : ((d0 :: ds0) ++ [':', ':', rbraceC, rbraceC]).dropWhile Char.isDigit =
      [':', ':', rbraceC, rbraceC] := by
    rw [dropWhile_append_all _ h2]
    rfl
  have hmA : clozeMatchAt
      (lbraceC :: lbraceC :: 'c' :: ((d0 :: ds0) ++ [':', ':', rbraceC, rbraceC])) = none := by
    have hd3 : ((lbraceC :: lbraceC :: 'c' :: ((d0 :: ds0) ++
        [':', ':', rbraceC, rbraceC])).drop 3) =
        (d0 :: ds0) ++ [':', ':', rbraceC, rbraceC] := rfl
    have hpre : isPre [lbraceC, lbraceC, 'c']
        (lbraceC :: lbraceC :: 'c' :: ((d0 :: ds0) ++ [':', ':', rbraceC, rbraceC])) = true := by
      simp [isPre]
    have hfind : findSfx [rbraceC, rbraceC]
        ((([':', ':', rbraceC, rbraceC] : List Char).drop 2).drop 1) = none := by rfl
    rw [clozeMatchAt, if_pos hpre, hd3, e3]
    simp only [e4, hfind]
    have hpre2 : isPre [':', ':'] ([':', ':', rbraceC, rbraceC] : List Char) = true := by
      simp [isPre]
    simp [hpre2]
  have hmB : clozeMatchAt
      (lbraceC :: 'c' :: ((d0 :: ds0) ++ [':', ':', rbraceC, rbraceC])) = none := by
    have h6 : ¬(lbraceC = 'c') := by decide
    simp [clozeMatchAt, isPre, h6]
  have hmC : clozeMatchAt
      ('c' :: ((d0 :: ds0) ++ [':', ':', rbraceC, rbraceC])) = none := by
    have h6 : ¬(lbraceC = 'c') := by decide
    simp [clozeMatchAt, isPre, h6]
  have hd0 : ¬(lbraceC = d0) := by
    intro he
    have h7 := h2 d0 (List.mem_cons_self d0 ds0)
    rw [← he] at h7
    exact absurd h7 (by decide)
  have hmD : clozeMatchAt (d0 :: (ds0 ++ [':', ':', rbraceC, rbraceC])) = none := by
    simp [clozeMatchAt, isPre, hd0]
  have hnb : lbraceC ∉ ds0 ++ [':', ':', rbraceC, rbraceC] := by
    intro hmem
    rcases List.mem_append.mp hmem with hin | hin
    · have h8 := h2 lbraceC (List.mem_cons_of_mem d0 hin)
      exact absurd h8 (by decide)
    · exact absurd hin (by decide)
  have hscan : clozeScan 0
      (lbraceC :: lbraceC :: 'c' :: ((d0 :: ds0) ++ [':', ':', rbraceC, rbraceC])) = [] := by
    rw [clozeScan_cons_none hmA, clozeScan_cons_none hmB, clozeScan_cons_none hmC]
    rw [List.cons_append]
    rw [clozeScan_cons_none hmD]
    exact clozeScan_no_lbrace hnb
  rw [cloze_numbers_in_string]
  rw [show (String.mk (lbraceC :: lbraceC :: 'c' :: ((d0 :: ds0) ++
    [':', ':', rbraceC, rbraceC]))).data =
    lbraceC :: lbraceC :: 'c' :: ((d0 :: ds0) ++ [':', ':', rbraceC, rbraceC]) from rfl]
  rw [hscan]
  rfl

theorem cloze_empty_marker_amended_witness :
    cloze_numbers_in_string
      ⟨lbraceC :: lbraceC :: 'c' :: (['1'] ++ [':', ':', rbraceC, rbraceC])⟩ = ∅ :=
  cloze_empty_marker_amended ['1'] (by decide) (by decide)
